import Mathlib

/-!
# Verification of the Arm-Characterization path generator and stream dispatcher

This file gives a shallow embedding, over exact rationals, of the core of the
repository: `PathGenerator.generate_parametric_path`, `circle_path`,
`PathGenerator.save_to_csv` / `load_csv_path`, and
`ArmController.stream_parametric_path` / `ArmController.read_response`.

Modelling conventions:
* Python floats are modelled as exact rationals (`ℚ`); the claims under study
  are about exact values (forced final samples, sample counts, index bounds),
  which the rational model captures.
* Python runtime errors (`ZeroDivisionError`, `IndexError`) are modelled by
  `Option`: a function returns `none` exactly when the Python code would raise.
* Python `int(x)` truncates toward zero (`ratTrunc`), Python `x // y` is floor
  division, Python `%` on integers matches `Int.emod`, and Python negative list
  indices wrap (`pyGet`).
* Wall-clock time in the dispatcher is an explicit rational state component;
  the time consumed by a write / acknowledgment wait / pacing sleep is an
  abstract nonnegative duration parameter.
-/

/-- Python `int(q)` on a real value: truncation toward zero.
(`Rat.floor` is used rather than `Int.floor` so that the definition reduces
in the kernel; `ratTrunc_eq` below restates it with `⌊⌋` and `⌈⌉`.) -/
def ratTrunc (q : ℚ) : ℤ := if 0 ≤ q then q.floor else -(-q).floor

/-- Python list indexing `l[i]`: nonnegative indices are direct, negative
indices wrap once from the end, anything else raises `IndexError` (`none`). -/
def pyGet {α : Type} (l : List α) (i : ℤ) : Option α :=
  if 0 ≤ i then l.get? i.toNat
  else
    let j : ℤ := (l.length : ℤ) + i
    if 0 ≤ j then l.get? j.toNat else none

/-- Run an option-valued function over a list, failing at the first failure.
Models a Python `for` loop whose body may raise. -/
def optMap {α β : Type} (g : α → Option β) : List α → Option (List β)
  | [] => some []
  | a :: l =>
    (g a).bind fun b => (optMap g l).bind fun bs => some (b :: bs)

/-- One iteration of the sampling loop of
`PathGenerator.generate_parametric_path` (source lines 61–86), for sample
index `s`.  `sc` and `seg` are the enclosing `seg_count` and `seg_time`.
Returns `none` where Python raises: `1000.0 / rate_hz` with `rate_hz = 0`,
`t_ms // seg_time` with `seg_time = 0`, or an out-of-range waypoint index. -/
def sampleAt (pts : List (ℚ × ℚ)) (closed : Bool) (total : ℚ) (rate : ℤ)
    (sc : ℤ) (seg : ℚ) (s : ℕ) : Option (ℚ × ℚ × ℚ) :=
  let n : ℤ := pts.length
  if rate = 0 then none
  else
    let t0 : ℚ := s * (1000 / rate)
    let t : ℚ := if t0 > total then total else t0
    let _tnorm : ℚ := if 0 < total then min 1 (t / total) else 1
    if seg = 0 then none
    else
      let segIdx : ℤ := min (sc - 1) ⌊t / seg⌋
      let u : ℚ := if 0 < seg then (t - segIdx * seg) / seg else 0
      let i0 : ℤ := segIdx
      let i1 : ℤ := if closed then (segIdx + 1) % n else segIdx + 1
      (pyGet pts i0).bind fun p0 =>
        (pyGet pts i1).bind fun p1 =>
          some (t, p0.1 + u * (p1.1 - p0.1), p0.2 + u * (p1.2 - p0.2))

/-- `PathGenerator.generate_parametric_path` (source lines 35–93).
`pts` and `closed` are the generator's configured waypoints and flag.
Returns `none` exactly when the Python code raises. -/
def generateParametricPath (pts : List (ℚ × ℚ)) (closed : Bool)
    (total : ℚ) (rate : ℤ) : Option (List (ℚ × ℚ × ℚ)) :=
  let n := pts.length
  if n = 0 then some []
  else if n = 1 then
    if rate = 0 then none
    else
      let ts := (max 1 (ratTrunc (total * rate / 1000))).toNat
      (pyGet pts 0).bind fun p =>
        some ((List.range ts).map fun i : ℕ => ((i : ℚ) * (1000 / rate), p.1, p.2))
  else
    let sc : ℤ := if closed then (n : ℤ) else (n : ℤ) - 1
    let seg : ℚ := total / (sc : ℚ)
    let ts := (max 1 (ratTrunc (total * rate / 1000))).toNat
    (optMap (sampleAt pts closed total rate sc seg) (List.range ts)).bind
      fun samples =>
        if samples.isEmpty then some samples
        else
          let fi : ℤ := if closed then 0 else (n : ℤ) - 1
          (pyGet pts fi).bind fun pf =>
            some (samples.dropLast ++ [(total, pf.1, pf.2)])

/-- Does the character list `s` start with `pat`? -/
def listStartsWith : List Char → List Char → Bool
  | _, [] => true
  | [], _ :: _ => false
  | c :: cs, p :: ps => (c = p) && listStartsWith cs ps

/-- Python's substring test `pat in s`, on character lists. -/
def containsSub : List Char → List Char → Bool
  | [], pat => listStartsWith [] pat
  | c :: cs, pat => listStartsWith (c :: cs) pat || containsSub cs pat

/-- `ArmController.read_response` recognizes a line as terminal when it
contains `"Position reached!"` or `"ERROR"` (source line 59). -/
def isTerminalResp (r : String) : Bool :=
  containsSub r.data "Position reached!".data
    || containsSub r.data "ERROR".data

/-- The `print` format for a received line (source line 58). -/
def arduinoEcho (r : String) : String := "  Arduino: " ++ r

/-- `ArmController.read_response` (source lines 52–61), over the lines that
will arrive on the serial port.  `fuel` is the number of 50 ms polls the
2-second timeout allows (2.0/0.05 = 40 in the source); each available line
consumes one poll.  Returns (printed lines, whether a terminal response was
seen, lines left in the buffer). -/
def readResponse : ℕ → List String → List String × Bool × List String
  | 0, ls => ([], false, ls)
  | _ + 1, [] => ([], false, [])
  | n + 1, r :: rest =>
    if isTerminalResp r then ([arduinoEcho r], true, rest)
    else
      let q := readResponse n rest
      (arduinoEcho r :: q.1, q.2.1, q.2.2)

/-- State of a streaming session: wall-clock time, pairs written to the
transport (each sent as the line `"x,y"`), lines printed, the per-sample
`(target, actual send time)` schedule, and the unread serial input. -/
structure StreamSt where
  now : ℚ
  written : List (ℚ × ℚ)
  log : List String
  sched : List (ℚ × ℚ)
  respBuf : List String

/-- `print` text of source line 90. -/
def startMsg (n : ℕ) (d : ℚ) : String :=
  "Starting parametric stream (" ++ toString n ++ " samples) in "
    ++ toString d ++ "s..."

/-- `print` text of source line 105 (`e` is the exception's text). -/
def writeErrMsg (e : String) : String := "Serial write error: " ++ e

/-- `print` text of source line 85. -/
def noSamplesMsg : String := "No samples to stream."

/-- The per-sample loop of `ArmController.stream_parametric_path` (source
lines 92–113).  `t0` is the fixed session start; `writeOk i` tells whether
the `i`-th `serial.write` raises; `postDur i ≥ 0` abstracts the wall-clock
time consumed after the `i`-th send (the write call plus the ack wait in
ack mode, or the fixed 1 ms pacing sleep otherwise).  A failing write
prints the error and breaks out of the loop. -/
def streamAux (t0 : ℚ) (ackMode : Bool) (ackFuel : ℕ) (writeOk : ℕ → Bool)
    (postDur : ℕ → ℚ) (errText : String) :
    ℕ → List (ℚ × ℚ × ℚ) → StreamSt → StreamSt
  | _, [], st => st
  | i, s :: rest, st =>
    let target := t0 + s.1 / 1000
    let sendT := max st.now target
    if writeOk i then
      let st1 : StreamSt :=
        { now := sendT + postDur i
          written := st.written ++ [(s.2.1, s.2.2)]
          log := st.log
          sched := st.sched ++ [(target, sendT)]
          respBuf := st.respBuf }
      let st2 : StreamSt :=
        if ackMode then
          let q := readResponse ackFuel st1.respBuf
          { st1 with log := st1.log ++ q.1, respBuf := q.2.2 }
        else st1
      streamAux t0 ackMode ackFuel writeOk postDur errText (i + 1) rest st2
    else
      { st with log := st.log ++ [writeErrMsg errText]
                sched := st.sched ++ [(target, sendT)]
                now := sendT }

/-- `ArmController.stream_parametric_path` (source lines 75–113).
`now0` is `time.time()` at entry; the session start is
`t0 = now0 + startDelay` (source line 89). -/
def streamParametricPath (samples : List (ℚ × ℚ × ℚ)) (ackMode : Bool)
    (startDelay now0 : ℚ) (ackFuel : ℕ) (writeOk : ℕ → Bool)
    (postDur : ℕ → ℚ) (errText : String) (respLines : List String) :
    StreamSt :=
  if samples.isEmpty then
    { now := now0, written := [], log := [noSamplesMsg], sched := [],
      respBuf := respLines }
  else
    streamAux (now0 + startDelay) ackMode ackFuel writeOk postDur errText 0
      samples
      { now := now0, written := [], log := [startMsg samples.length startDelay],
        sched := [], respBuf := respLines }

/-- `circle_path` (source lines 119–147).  The embedding is over exact
rationals, so the transcendental `math.cos`, `math.sin` and `math.pi` are
abstracted as parameters `cosF`, `sinF`, `piQ`; every claim proved about
this definition is uniform in them (the distance property additionally
assumes the Pythagorean identity, which the real cosine and sine satisfy).
Returns `none` exactly when Python raises (`1000.0 / rate_hz` with
`rate_hz = 0`; the `t/total` division is guarded by `total > 0`). -/
def circlePath (cosF sinF : ℚ → ℚ) (piQ : ℚ) (cx cy radius : ℚ)
    (total : ℚ) (rate : ℤ) (startAngle : ℚ) : Option (List (ℚ × ℚ × ℚ)) :=
  if rate = 0 then none
  else
    let ts := (max 1 (ratTrunc (total * rate / 1000))).toNat
    let samples := (List.range ts).map fun s : ℕ =>
      let t0 : ℚ := (s : ℚ) * (1000 / rate)
      let t : ℚ := if t0 > total then total else t0
      let tn : ℚ := if 0 < total then min 1 (t / total) else 1
      let angle := startAngle + tn * (2 * piQ)
      (t, cx + radius * cosF angle, cy + radius * sinF angle)
    if samples.isEmpty then some samples
    else
      some (samples.dropLast
        ++ [(total, cx + radius * cosF startAngle,
              cy + radius * sinF startAngle)])

/-- Decimal digits of a natural number, most significant first. -/
def natDigits (n : ℕ) : List Char :=
  if n < 10 then [Char.ofNat (48 + n)]
  else natDigits (n / 10) ++ [Char.ofNat (48 + n % 10)]
termination_by n
decreasing_by exact Nat.div_lt_self (by omega) (by omega)

/-- Is `c` one of the ASCII digits `'0'`–`'9'`? -/
def isDigitCh (c : Char) : Bool := 48 ≤ c.toNat && c.toNat ≤ 57

/-- Numeric value of an ASCII digit. -/
def digitVal (c : Char) : ℕ := c.toNat - 48

/-- Value of a string of ASCII digits (most significant first). -/
def natVal (cs : List Char) : ℕ := cs.foldl (fun a c => a * 10 + digitVal c) 0

/-- Round to the nearest integer, ties to even — the rounding used by
Python's fixed-precision float formatting. -/
def rndHalfEven (q : ℚ) : ℤ :=
  let f := q.floor
  let r := q - f
  if r < 1 / 2 then f
  else if 1 / 2 < r then f + 1
  else if f % 2 = 0 then f else f + 1

/-- Python's `f"{q:.pf}"` fixed-precision decimal rendering (as used by
`PathGenerator.save_to_csv`, source line 101, with `p` = 3 for `t_ms` and
6 for `x`/`y`). -/
def fmtFixed (p : ℕ) (q : ℚ) : String :=
  let n := rndHalfEven (q * 10 ^ p)
  let a := n.natAbs
  let ip := natDigits (a / 10 ^ p)
  let fp := List.replicate (p - (natDigits (a % 10 ^ p)).length) '0'
      ++ natDigits (a % 10 ^ p)
  ⟨(if q < 0 then ['-'] else []) ++ ip ++ '.' :: fp⟩

/-- The decimal core of Python's `float()` string parsing, as exercised by
`load_csv_path` (source lines 38–40): optional sign, integer digits,
optional fractional part.  (The exponent, `inf` and `nan` forms of
`float()` never occur in the fixed-precision files under study.) -/
def parseDec (cs : List Char) : Option ℚ :=
  match cs with
  | [] => none
  | c :: r =>
    let neg : Bool := c == '-'
    let body := if c == '-' || c == '+' then r else c :: r
    let ip := body.takeWhile isDigitCh
    let rest := body.dropWhile isDigitCh
    let val? : Option ℚ :=
      match rest with
      | [] => if ip.isEmpty then none else some ((natVal ip : ℚ))
      | '.' :: fp =>
        if fp.all isDigitCh && !(ip.isEmpty && fp.isEmpty) then
          some ((natVal ip : ℚ) + (natVal fp : ℚ) / 10 ^ fp.length)
        else none
      | _ => none
    val?.map fun v => if neg then -v else v

/-- `PathGenerator.save_to_csv` (source lines 95–101), at the level of rows
of comma-separated fields (the `csv` module's writer and reader are exact
inverses on these purely numeric, quote-free fields). -/
def saveToCsv (samples : List (ℚ × ℚ × ℚ)) : List (List String) :=
  ["t_ms", "x", "y"] :: samples.map fun s =>
    [fmtFixed 3 s.1, fmtFixed 6 s.2.1, fmtFixed 6 s.2.2]

/-- The row-accumulation step of `load_csv_path` (source lines 35–43): a
row with at least 3 fields whose first three parse as floats is appended;
any other row is skipped. -/
def loadRow (acc : List (ℚ × ℚ × ℚ)) (row : List String) :
    List (ℚ × ℚ × ℚ) :=
  match row with
  | t :: x :: y :: _ =>
    match parseDec t.data, parseDec x.data, parseDec y.data with
    | some tv, some xv, some yv => acc ++ [(tv, xv, yv)]
    | _, _, _ => acc
  | _ => acc

/-- `load_csv_path` (source lines 26–49): skip the header, fold the rows,
and report `none` for an empty file (the `next(reader)` raises and the
exception handler returns `None`) or when no row was usable. -/
def loadCsvPath (rows : List (List String)) : Option (List (ℚ × ℚ × ℚ)) :=
  match rows with
  | [] => none
  | _ :: body =>
    let samples := body.foldl loadRow []
    if samples.isEmpty then none else some samples

/-- `Rat.floor` agrees with the mathematical floor. -/
lemma ratFloor_eq (q : ℚ) : q.floor = ⌊q⌋ :=
  (Rat.floor_def' q).trans Rat.floor_def.symm

/-- `ratTrunc` is floor on nonnegatives and ceiling on negatives. -/
lemma ratTrunc_eq (q : ℚ) : ratTrunc q = if 0 ≤ q then ⌊q⌋ else ⌈q⌉ := by
  unfold ratTrunc
  rw [ratFloor_eq, ratFloor_eq, Int.floor_neg]
  simp

lemma pyGet_nonneg {α : Type} (l : List α) (i : ℤ) (h : 0 ≤ i) :
    pyGet l i = l.get? i.toNat := by
  simp [pyGet, h]

lemma pyGet_some {α : Type} (l : List α) (i : ℤ) (h0 : 0 ≤ i)
    (h1 : i < l.length) : ∃ p, pyGet l i = some p := by
  rw [pyGet_nonneg l i h0]
  cases hp : l.get? i.toNat with
  | none => rw [List.get?_eq_none] at hp; omega
  | some p => exact ⟨p, rfl⟩

lemma optMap_length {α β : Type} (g : α → Option β) :
    ∀ (l : List α) (r : List β), optMap g l = some r → r.length = l.length := by
  intro l
  induction l with
  | nil =>
    intro r h
    simp only [optMap, Option.some.injEq] at h
    subst h; rfl
  | cons a l ih =>
    intro r h
    simp only [optMap, Option.bind_eq_some, Option.some.injEq] at h
    obtain ⟨b, _, bs, hbs, hr⟩ := h
    subst hr
    simp [ih bs hbs]

lemma optMap_get? {α β : Type} (g : α → Option β) :
    ∀ (l : List α) (r : List β), optMap g l = some r →
      ∀ i, (l.get? i).bind g = r.get? i := by
  intro l
  induction l with
  | nil =>
    intro r h i
    simp only [optMap, Option.some.injEq] at h
    subst h; simp
  | cons a l ih =>
    intro r h i
    simp only [optMap, Option.bind_eq_some, Option.some.injEq] at h
    obtain ⟨b, hb, bs, hbs, hr⟩ := h
    subst hr
    cases i with
    | zero => simpa using hb
    | succ i => simpa using ih bs hbs i

lemma optMap_isSome {α β : Type} (g : α → Option β) :
    ∀ (l : List α), (∀ a ∈ l, (g a).isSome) → (optMap g l).isSome := by
  intro l
  induction l with
  | nil => intro _; simp [optMap]
  | cons a l ih =>
    intro h
    have ha := h a (by simp)
    obtain ⟨b, hb⟩ := Option.isSome_iff_exists.mp ha
    have hl := ih fun x hx => h x (by simp [hx])
    obtain ⟨bs, hbs⟩ := Option.isSome_iff_exists.mp hl
    simp [optMap, hb, hbs]

/-- On the claims' main domain (≥2 waypoints, positive duration and rate),
every iteration of the sampling loop succeeds, and the produced sample's
time is `min (s·1000/rate) total` (the clamped sample time). -/
lemma sampleAt_some_fst (pts : List (ℚ × ℚ)) (closed : Bool) (total : ℚ)
    (rate sc : ℤ) (seg : ℚ) (s : ℕ)
    (h2 : 2 ≤ pts.length) (ht : 0 < total) (hr : 0 < rate)
    (hsc : sc = if closed then (pts.length : ℤ) else (pts.length : ℤ) - 1)
    (hseg : seg = total / (sc : ℚ)) :
    ∃ xy : ℚ × ℚ, sampleAt pts closed total rate sc seg s
      = some (min ((s : ℚ) * (1000 / (rate : ℚ))) total, xy.1, xy.2) := by
  have hn : (2 : ℤ) ≤ (pts.length : ℤ) := by exact_mod_cast h2
  have hsc1 : 1 ≤ sc := by rw [hsc]; split <;> omega
  have hscQ : (0 : ℚ) < (sc : ℚ) := by exact_mod_cast (by omega : (0 : ℤ) < sc)
  have hsegpos : 0 < seg := by rw [hseg]; exact div_pos ht hscQ
  have hrne : rate ≠ 0 := by omega
  have hrQ : (0 : ℚ) < (rate : ℚ) := by exact_mod_cast hr
  have hd0 : (0 : ℚ) ≤ 1000 / (rate : ℚ) := by positivity
  have ht0 : (0 : ℚ) ≤ (s : ℚ) * (1000 / (rate : ℚ)) :=
    mul_nonneg (Nat.cast_nonneg s) hd0
  have htmin : (if (s : ℚ) * (1000 / (rate : ℚ)) > total then total
      else (s : ℚ) * (1000 / (rate : ℚ)))
      = min ((s : ℚ) * (1000 / (rate : ℚ))) total := by
    rcases le_or_lt ((s : ℚ) * (1000 / (rate : ℚ))) total with h | h
    · rw [if_neg (not_lt.mpr h), min_eq_left h]
    · rw [if_pos h, min_eq_right h.le]
  have htnn : (0 : ℚ) ≤ min ((s : ℚ) * (1000 / (rate : ℚ))) total :=
    le_min ht0 ht.le
  have hfl : 0 ≤ ⌊min ((s : ℚ) * (1000 / (rate : ℚ))) total / seg⌋ :=
    Int.floor_nonneg.mpr (div_nonneg htnn hsegpos.le)
  have hsi0 : 0 ≤ min (sc - 1) ⌊min ((s : ℚ) * (1000 / (rate : ℚ))) total / seg⌋ :=
    le_min (by omega) hfl
  have hsi1 : min (sc - 1) ⌊min ((s : ℚ) * (1000 / (rate : ℚ))) total / seg⌋ ≤ sc - 1 :=
    min_le_left _ _
  have hscn : sc ≤ (pts.length : ℤ) := by rw [hsc]; split <;> omega
  obtain ⟨p0, hp0⟩ := pyGet_some pts
    (min (sc - 1) ⌊min ((s : ℚ) * (1000 / (rate : ℚ))) total / seg⌋) hsi0
    (by omega)
  cases closed with
  | false =>
    have hscn' : sc = (pts.length : ℤ) - 1 := by simpa using hsc
    obtain ⟨p1, hp1⟩ := pyGet_some pts
      (min (sc - 1) ⌊min ((s : ℚ) * (1000 / (rate : ℚ))) total / seg⌋ + 1)
      (by omega) (by omega)
    refine ⟨(p0.1 + (if 0 < seg
        then (min ((s : ℚ) * (1000 / (rate : ℚ))) total
          - (min (sc - 1) ⌊min ((s : ℚ) * (1000 / (rate : ℚ))) total / seg⌋ : ℤ)
            * seg) / seg
        else 0) * (p1.1 - p0.1),
      p0.2 + (if 0 < seg
        then (min ((s : ℚ) * (1000 / (rate : ℚ))) total
          - (min (sc - 1) ⌊min ((s : ℚ) * (1000 / (rate : ℚ))) total / seg⌋ : ℤ)
            * seg) / seg
        else 0) * (p1.2 - p0.2)), ?_⟩
    simp only [sampleAt, if_neg hrne, htmin, if_neg hsegpos.ne',
      Bool.false_eq_true, if_false, hp0, hp1, Option.some_bind]
  | true =>
    have hscn' : sc = (pts.length : ℤ) := by simpa using hsc
    obtain ⟨p1, hp1⟩ := pyGet_some pts
      ((min (sc - 1) ⌊min ((s : ℚ) * (1000 / (rate : ℚ))) total / seg⌋ + 1)
        % (pts.length : ℤ))
      (Int.emod_nonneg _ (by omega)) (Int.emod_lt_of_pos _ (by omega))
    refine ⟨(p0.1 + (if 0 < seg
        then (min ((s : ℚ) * (1000 / (rate : ℚ))) total
          - (min (sc - 1) ⌊min ((s : ℚ) * (1000 / (rate : ℚ))) total / seg⌋ : ℤ)
            * seg) / seg
        else 0) * (p1.1 - p0.1),
      p0.2 + (if 0 < seg
        then (min ((s : ℚ) * (1000 / (rate : ℚ))) total
          - (min (sc - 1) ⌊min ((s : ℚ) * (1000 / (rate : ℚ))) total / seg⌋ : ℤ)
            * seg) / seg
        else 0) * (p1.2 - p0.2)), ?_⟩
    simp only [sampleAt, if_neg hrne, htmin, if_neg hsegpos.ne',
      if_true, hp0, hp1, Option.some_bind]

/-- Structure of the generated trajectory on the main domain: the call
succeeds, produces `max 1 ⌊total·rate/1000⌋` samples, every sample except the
final one carries the clamped time `min (i·1000/rate) total`, and the final
sample is the corrected `(total, terminal waypoint)`. -/
lemma generate_struct (pts : List (ℚ × ℚ)) (closed : Bool) (total : ℚ)
    (rate : ℤ) (h2 : 2 ≤ pts.length) (ht : 0 < total) (hr : 0 < rate) :
    ∃ l, generateParametricPath pts closed total rate = some l ∧
      l.length = (max 1 (ratTrunc (total * (rate : ℚ) / 1000))).toNat ∧
      (∀ i, i + 1 < l.length → ∃ xy : ℚ × ℚ,
        l.get? i = some (min ((i : ℚ) * (1000 / (rate : ℚ))) total, xy.1, xy.2)) ∧
      l.getLast? = (if closed then pts.head? else pts.getLast?).map
        (fun p => (total, p.1, p.2)) := by
  have hsome : ∀ a ∈ List.range (max 1 (ratTrunc (total * (rate : ℚ) / 1000))).toNat,
      (sampleAt pts closed total rate
        (if closed then (pts.length : ℤ) else (pts.length : ℤ) - 1)
        (total / (Int.cast
          (if closed then (pts.length : ℤ) else (pts.length : ℤ) - 1) : ℚ))
        a).isSome := by
    intro a _
    obtain ⟨xy, hxy⟩ := sampleAt_some_fst pts closed total rate _ _ a h2 ht hr
      rfl rfl
    rw [hxy]; rfl
  obtain ⟨samples, hsam⟩ := Option.isSome_iff_exists.mp
    (optMap_isSome _ _ hsome)
  have hlen : samples.length
      = (max 1 (ratTrunc (total * (rate : ℚ) / 1000))).toNat :=
    (optMap_length _ _ _ hsam).trans (List.length_range _)
  have hts1 : 1 ≤ (max 1 (ratTrunc (total * (rate : ℚ) / 1000))).toNat := by
    have := le_max_left 1 (ratTrunc (total * (rate : ℚ) / 1000))
    omega
  have hnil : samples ≠ [] := by
    intro h; rw [h] at hlen; simp at hlen; omega
  have hempty : samples.isEmpty = false := by
    simpa [List.isEmpty_iff] using hnil
  obtain ⟨pf, hpf⟩ := pyGet_some pts
    (if closed then 0 else (pts.length : ℤ) - 1)
    (by split <;> omega) (by split <;> omega)
  have hgen : generateParametricPath pts closed total rate
      = some (samples.dropLast ++ [(total, pf.1, pf.2)]) := by
    simp only [generateParametricPath]
    rw [if_neg (by omega : ¬ pts.length = 0), if_neg (by omega : ¬ pts.length = 1)]
    rw [hsam, Option.some_bind, if_neg (by simp [hempty]), hpf, Option.some_bind]
  refine ⟨samples.dropLast ++ [(total, pf.1, pf.2)], hgen, ?_, ?_, ?_⟩
  · simp only [List.length_append, List.length_dropLast, List.length_singleton]
    omega
  · intro i hi
    simp only [List.length_append, List.length_dropLast,
      List.length_singleton] at hi
    have hi' : i < samples.dropLast.length := by
      simp only [List.length_dropLast]; omega
    rw [List.get?_append hi']
    have hdl : samples.dropLast.get? i = samples.get? i := by
      rw [List.dropLast_eq_take, List.get?_take]
      simp only [List.length_dropLast] at hi'; omega
    rw [hdl]
    have hrange : (List.range (max 1 (ratTrunc (total * (rate : ℚ) / 1000))).toNat).get? i
        = some i := List.get?_range (by omega)
    have := optMap_get? _ _ _ hsam i
    rw [hrange, Option.some_bind] at this
    obtain ⟨xy, hxy⟩ := sampleAt_some_fst pts closed total rate _ _ i h2 ht hr
      rfl rfl
    exact ⟨xy, by rw [← this, hxy]⟩
  · rw [List.getLast?_concat]
    cases closed with
    | false =>
      have htn : ((pts.length : ℤ) - 1).toNat = pts.length - 1 := by omega
      have : pyGet pts ((pts.length : ℤ) - 1) = pts.get? (pts.length - 1) := by
        rw [pyGet_nonneg _ _ (by omega), htn]
      simp only [Bool.false_eq_true, if_false] at hpf ⊢
      rw [this] at hpf
      rw [← List.getLast?_eq_get?] at hpf
      rw [hpf]; rfl
    | true =>
      simp only [if_true] at hpf ⊢
      rw [pyGet_nonneg _ _ (by omega)] at hpf
      simp only [Int.toNat_zero, List.get?_zero] at hpf
      rw [hpf]; rfl

/-- The final-correction index (`0` if closed, `n-1` if open) fetches the
head (resp. last) waypoint. -/
lemma pyGet_terminal (pts : List (ℚ × ℚ)) (closed : Bool)
    (h2 : 2 ≤ pts.length) (pf : ℚ × ℚ)
    (hpf : pyGet pts (if closed then 0 else (pts.length : ℤ) - 1) = some pf) :
    (if closed then pts.head? else pts.getLast?) = some pf := by
  cases closed with
  | false =>
    simp only [Bool.false_eq_true, if_false] at hpf ⊢
    rw [pyGet_nonneg _ _ (by omega)] at hpf
    have htn : ((pts.length : ℤ) - 1).toNat = pts.length - 1 := by omega
    rw [htn, ← List.getLast?_eq_get?] at hpf
    exact hpf
  | true =>
    simp only [if_true] at hpf ⊢
    rw [pyGet_nonneg _ _ (by omega)] at hpf
    cases pts with
    | nil => simp at h2
    | cons a r => simpa using hpf

/-- Claim C2 (amended): for a `PathSpec` with at least 2 waypoints, whenever
`generate_parametric_path` returns a trajectory, that trajectory is non-empty
and its final sample is exactly `(total_time_ms, terminal_point)`, the
terminal point being `waypoints[0]` if closed and `waypoints[n-1]` otherwise.
(With a single waypoint the early return skips the final correction, see the
counterexample.) -/
theorem C2_thm (pts : List (ℚ × ℚ)) (closed : Bool) (total : ℚ) (rate : ℤ)
    (l : List (ℚ × ℚ × ℚ)) (h2 : 2 ≤ pts.length)
    (h : generateParametricPath pts closed total rate = some l) :
    l ≠ [] ∧ l.getLast? = (if closed then pts.head? else pts.getLast?).map
      (fun p => (total, p.1, p.2)) := by
  simp only [generateParametricPath] at h
  rw [if_neg (by omega : ¬ pts.length = 0),
    if_neg (by omega : ¬ pts.length = 1)] at h
  obtain ⟨samples, hsam, hf⟩ := Option.bind_eq_some.mp h
  have hlen : samples.length
      = (max 1 (ratTrunc (total * (rate : ℚ) / 1000))).toNat :=
    (optMap_length _ _ _ hsam).trans (List.length_range _)
  have hts1 : 1 ≤ (max 1 (ratTrunc (total * (rate : ℚ) / 1000))).toNat := by
    have := le_max_left 1 (ratTrunc (total * (rate : ℚ) / 1000))
    omega
  have hnil : samples ≠ [] := by
    intro hx; rw [hx] at hlen; simp at hlen; omega
  rw [if_neg (by simpa [List.isEmpty_iff] using hnil)] at hf
  obtain ⟨pf, hpf, hl⟩ := Option.bind_eq_some.mp hf
  have hl' : l = samples.dropLast ++ [(total, pf.1, pf.2)] :=
    (Option.some.injEq _ _ ▸ hl).symm
  constructor
  · rw [hl']; simp
  · rw [hl', List.getLast?_concat, pyGet_terminal pts closed h2 pf hpf]
    rfl

/-- Claim C2 counterexample: with a single waypoint (`waypoint count ≥ 1` is
allowed by the claim), `generate_parametric_path (3,4), total=1000, rate=10`
returns 10 samples whose final sample is `(900, 3, 4)`, not
`(total_time_ms, terminal) = (1000, 3, 4)`. -/
theorem C2_cex : ∃ l, generateParametricPath [((3 : ℚ), (4 : ℚ))] false 1000 10
    = some l ∧ l ≠ [] ∧ l.getLast? = some (900, 3, 4) ∧
    l.getLast? ≠ some (1000, 3, 4) := by
  refine ⟨(List.range 10).map fun i : ℕ => ((i : ℚ) * 100, 3, 4), ?_, ?_, ?_, ?_⟩
  · norm_num [generateParametricPath, pyGet, ratTrunc_eq]
    rfl
  · simp
  · simp [List.range_succ]
    norm_num
  · simp [List.range_succ]
    norm_num

/-- Witness for C2 at a concrete input. -/
theorem C2_wit : 2 ≤ ([((0 : ℚ), (0 : ℚ)), (1, 1)]).length ∧
    generateParametricPath [((0 : ℚ), (0 : ℚ)), (1, 1)] false 1000 1
      = some [((1000 : ℚ), 1, 1)] ∧
    (([((1000 : ℚ), 1, 1)] : List (ℚ × ℚ × ℚ)) ≠ [] ∧
      ([((1000 : ℚ), 1, 1)] : List (ℚ × ℚ × ℚ)).getLast?
        = (if false then ([((0 : ℚ), (0 : ℚ)), (1, 1)]).head?
            else ([((0 : ℚ), (0 : ℚ)), (1, 1)]).getLast?).map
          (fun p => ((1000 : ℚ), p.1, p.2))) := by
  have hgen : generateParametricPath [((0 : ℚ), (0 : ℚ)), (1, 1)] false 1000 1
      = some [((1000 : ℚ), 1, 1)] := by
    norm_num [generateParametricPath, sampleAt, optMap, pyGet, ratTrunc_eq,
      List.range_succ]
  exact ⟨by decide, hgen, C2_thm _ _ _ _ _ (by decide) hgen⟩

/-- The sampling-loop body succeeds whenever `rate ≠ 0`, `seg ≠ 0` and the
computed floor-division index is nonnegative (the waypoint indices are then
automatically in range). -/
lemma sampleAt_isSome (pts : List (ℚ × ℚ)) (closed : Bool) (total : ℚ)
    (rate sc : ℤ) (seg : ℚ) (s : ℕ)
    (h2 : 2 ≤ pts.length) (hrne : rate ≠ 0)
    (hsc : sc = if closed then (pts.length : ℤ) else (pts.length : ℤ) - 1)
    (hsegne : seg ≠ 0)
    (hfl : 0 ≤ ⌊(if (s : ℚ) * (1000 / (rate : ℚ)) > total then total
      else (s : ℚ) * (1000 / (rate : ℚ))) / seg⌋) :
    (sampleAt pts closed total rate sc seg s).isSome := by
  have hn : (2 : ℤ) ≤ (pts.length : ℤ) := by exact_mod_cast h2
  have hsc1 : 1 ≤ sc := by rw [hsc]; split <;> omega
  have hscn : sc ≤ (pts.length : ℤ) := by rw [hsc]; split <;> omega
  have hmin0 : 0 ≤ min (sc - 1) ⌊(if (s : ℚ) * (1000 / (rate : ℚ)) > total
      then total else (s : ℚ) * (1000 / (rate : ℚ))) / seg⌋ :=
    le_min (by omega) hfl
  have hmin1 : min (sc - 1) ⌊(if (s : ℚ) * (1000 / (rate : ℚ)) > total
      then total else (s : ℚ) * (1000 / (rate : ℚ))) / seg⌋ ≤ sc - 1 :=
    min_le_left _ _
  obtain ⟨p0, hp0⟩ := pyGet_some pts
    (min (sc - 1) ⌊(if (s : ℚ) * (1000 / (rate : ℚ)) > total
      then total else (s : ℚ) * (1000 / (rate : ℚ))) / seg⌋) hmin0 (by omega)
  cases closed with
  | false =>
    obtain ⟨p1, hp1⟩ := pyGet_some pts
      (min (sc - 1) ⌊(if (s : ℚ) * (1000 / (rate : ℚ)) > total
        then total else (s : ℚ) * (1000 / (rate : ℚ))) / seg⌋ + 1)
      (by omega) (by simp only [Bool.false_eq_true, if_false] at hsc; omega)
    simp only [sampleAt, if_neg hrne, if_neg hsegne, Bool.false_eq_true,
      if_false, hp0, hp1, Option.some_bind]
    rfl
  | true =>
    obtain ⟨p1, hp1⟩ := pyGet_some pts
      ((min (sc - 1) ⌊(if (s : ℚ) * (1000 / (rate : ℚ)) > total
        then total else (s : ℚ) * (1000 / (rate : ℚ))) / seg⌋ + 1)
          % (pts.length : ℤ))
      (Int.emod_nonneg _ (by omega)) (Int.emod_lt_of_pos _ (by omega))
    simp only [sampleAt, if_neg hrne, if_neg hsegne, if_true, hp0, hp1,
      Option.some_bind]
    rfl

/-- Claim C3 (amended): `generate_parametric_path` performs no parameter
validation and raises no ConfigError (no such error exists in the code):
with ≥2 waypoints, a negative rate with positive duration — or a positive
rate with negative duration — returns the 1-sample trajectory
`[(total_time_ms, terminal_waypoint)]` normally. -/
theorem C3_thm (pts : List (ℚ × ℚ)) (closed : Bool) (total : ℚ) (rate : ℤ)
    (h2 : 2 ≤ pts.length)
    (h : (rate < 0 ∧ 0 < total) ∨ (0 < rate ∧ total < 0)) :
    ∃ p, (if closed then pts.head? else pts.getLast?) = some p ∧
      generateParametricPath pts closed total rate
        = some [(total, p.1, p.2)] := by
  have hn : (2 : ℤ) ≤ (pts.length : ℤ) := by exact_mod_cast h2
  have hrne : rate ≠ 0 := by rcases h with ⟨h1, _⟩ | ⟨h1, _⟩ <;> omega
  have htne : total ≠ 0 := by rcases h with ⟨_, h1⟩ | ⟨_, h1⟩ <;>
    [exact h1.ne'; exact h1.ne]
  have hq : total * (rate : ℚ) / 1000 < 0 := by
    rcases h with ⟨h1, h2'⟩ | ⟨h1, h2'⟩
    · have : (rate : ℚ) < 0 := by exact_mod_cast h1
      exact div_neg_of_neg_of_pos (mul_neg_of_pos_of_neg h2' this) (by norm_num)
    · have : (0 : ℚ) < (rate : ℚ) := by exact_mod_cast h1
      exact div_neg_of_neg_of_pos (mul_neg_of_neg_of_pos h2' this) (by norm_num)
  have hts : (max 1 (ratTrunc (total * (rate : ℚ) / 1000))).toNat = 1 := by
    rw [ratTrunc_eq, if_neg (not_le.mpr hq)]
    have hc : ⌈total * (rate : ℚ) / 1000⌉ ≤ 0 :=
      Int.ceil_le.mpr (by exact_mod_cast hq.le)
    omega
  have hsc1 : 1 ≤ (if closed then (pts.length : ℤ) else (pts.length : ℤ) - 1) := by
    split <;> omega
  have hscne : (Int.cast (if closed then (pts.length : ℤ)
      else (pts.length : ℤ) - 1) : ℚ) ≠ 0 := by
    have : ((if closed then (pts.length : ℤ) else (pts.length : ℤ) - 1) : ℤ) ≠ 0 := by
      omega
    exact_mod_cast this
  have hsegne : total / (Int.cast (if closed then (pts.length : ℤ)
      else (pts.length : ℤ) - 1) : ℚ) ≠ 0 := div_ne_zero htne hscne
  have hfl : 0 ≤ ⌊(if ((0 : ℕ) : ℚ) * (1000 / (rate : ℚ)) > total
      then total else ((0 : ℕ) : ℚ) * (1000 / (rate : ℚ)))
      / (total / (Int.cast (if closed then (pts.length : ℤ)
          else (pts.length : ℤ) - 1) : ℚ))⌋ := by
    have h00 : (((0 : ℕ) : ℚ)) * (1000 / (rate : ℚ)) = 0 := by simp
    rw [h00]
    rcases h with ⟨_, h1⟩ | ⟨_, h1⟩
    · rw [if_neg (by exact h1.asymm), zero_div, Int.floor_zero]
    · rw [if_pos h1]
      have hdiv : total / (total / (Int.cast (if closed then (pts.length : ℤ)
          else (pts.length : ℤ) - 1) : ℚ))
          = (Int.cast (if closed then (pts.length : ℤ)
            else (pts.length : ℤ) - 1) : ℚ) := by
        rw [div_div_eq_mul_div, mul_comm, mul_div_assoc, div_self htne, mul_one]
      rw [hdiv, Int.floor_intCast]
      omega
  have hsome0 := sampleAt_isSome pts closed total rate _ _ 0 h2 hrne rfl
    hsegne hfl
  obtain ⟨v, hv⟩ := Option.isSome_iff_exists.mp hsome0
  obtain ⟨pf, hpf⟩ := pyGet_some pts
    (if closed then 0 else (pts.length : ℤ) - 1)
    (by split <;> omega) (by split <;> omega)
  refine ⟨pf, pyGet_terminal pts closed h2 pf hpf, ?_⟩
  simp only [generateParametricPath]
  rw [if_neg (by omega : ¬ pts.length = 0),
    if_neg (by omega : ¬ pts.length = 1), hts,
    (rfl : List.range 1 = [0])]
  simp only [optMap, hv, Option.some_bind]
  rw [if_neg (by simp), hpf, Option.some_bind]
  simp

/-- Claim C3 counterexample: `rate_hz = -1 ≤ 0` with a valid 2-waypoint path
does not fail — `generate_parametric_path` returns a trajectory (no
ConfigError exists in the code). -/
theorem C3_cex : ((-1 : ℤ) ≤ 0) ∧
    generateParametricPath [((0 : ℚ), (0 : ℚ)), (1, 1)] false 1000 (-1) ≠ none ∧
    generateParametricPath [((0 : ℚ), (0 : ℚ)), (1, 1)] false 1000 (-1)
      = some [(1000, 1, 1)] := by
  have hgen : generateParametricPath [((0 : ℚ), (0 : ℚ)), (1, 1)] false 1000 (-1)
      = some [(1000, 1, 1)] := by
    norm_num [generateParametricPath, sampleAt, optMap, pyGet, ratTrunc_eq,
      List.range_succ]
  exact ⟨by decide, by rw [hgen]; simp, hgen⟩

/-- Witness for C3 at a concrete input. -/
theorem C3_wit : 2 ≤ ([((0 : ℚ), (0 : ℚ)), (1, 1)]).length ∧
    (((-1 : ℤ) < 0 ∧ (0 : ℚ) < 1000) ∨ ((0 : ℤ) < -1 ∧ (1000 : ℚ) < 0)) ∧
    (∃ p, (if false then ([((0 : ℚ), (0 : ℚ)), (1, 1)]).head?
        else ([((0 : ℚ), (0 : ℚ)), (1, 1)]).getLast?) = some p ∧
      generateParametricPath [((0 : ℚ), (0 : ℚ)), (1, 1)] false 1000 (-1)
        = some [(1000, p.1, p.2)]) :=
  ⟨by decide, Or.inl ⟨by decide, by decide⟩,
    C3_thm [((0 : ℚ), (0 : ℚ)), (1, 1)] false 1000 (-1) (by decide)
      (Or.inl ⟨by decide, by decide⟩)⟩

/-- Claim C6 (amended): for positive duration and rate,
`generate_parametric_path` is total for every `PathSpec`: no
division-by-zero or out-of-range index error is reachable.  (With
`total_time_ms = 0` and ≥2 waypoints, the unguarded floor division
`t_ms // seg_time` divides by zero, see the counterexample.) -/
theorem C6_thm (pts : List (ℚ × ℚ)) (closed : Bool) (total : ℚ) (rate : ℤ)
    (ht : 0 < total) (hr : 0 < rate) :
    (generateParametricPath pts closed total rate).isSome := by
  cases pts with
  | nil => simp [generateParametricPath]
  | cons p rest =>
    cases rest with
    | nil =>
      have hrne : rate ≠ 0 := by omega
      simp [generateParametricPath, pyGet, hrne]
    | cons q rest2 =>
      obtain ⟨l, hgen, _⟩ := generate_struct (p :: q :: rest2) closed total
        rate (by simp) ht hr
      rw [hgen]; rfl

/-- Claim C6 counterexample: at `total_time_ms = 0` (allowed by the claim's
`total_time_ms ≥ 0`), `rate_hz = 100 > 0` and 2 waypoints, the generator
divides by zero (`t_ms // seg_time` with `seg_time = 0`) — modelled as
`none`. -/
theorem C6_cex : (0 : ℤ) < 100 ∧ (0 : ℚ) ≤ 0 ∧
    generateParametricPath [((0 : ℚ), (0 : ℚ)), (1, 1)] false 0 100 = none := by
  refine ⟨by decide, by decide, ?_⟩
  norm_num [generateParametricPath, sampleAt, optMap, pyGet, ratTrunc_eq,
    List.range_succ]

/-- Witness for C6 at a concrete input. -/
theorem C6_wit : (0 : ℚ) < 1000 ∧ (0 : ℤ) < 100 ∧
    (generateParametricPath [((0 : ℚ), (0 : ℚ)), (1, 1)] false 1000 100).isSome :=
  ⟨by decide, by decide,
    C6_thm [((0 : ℚ), (0 : ℚ)), (1, 1)] false 1000 100 (by decide) (by decide)⟩

/-- Claim C1 (amended): for a `PathSpec` with ≥2 waypoints and positive
duration and rate, `generate_parametric_path` returns a trajectory of
exactly `max 1 ⌊total_time_ms·rate_hz/1000⌋` samples with non-decreasing
`t_ms`; the first sample has `t_ms = 0` whenever the trajectory has at
least 2 samples (a 1-sample trajectory consists solely of the corrected
final sample, whose time is `total_time_ms`, see the counterexample). -/
theorem C1_thm (pts : List (ℚ × ℚ)) (closed : Bool) (total : ℚ) (rate : ℤ)
    (h2 : 2 ≤ pts.length) (ht : 0 < total) (hr : 0 < rate) :
    ∃ l, generateParametricPath pts closed total rate = some l ∧
      l.length = (max 1 ⌊total * (rate : ℚ) / 1000⌋).toNat ∧
      List.Chain' (fun a b : ℚ × ℚ × ℚ => a.1 ≤ b.1) l ∧
      (2 ≤ l.length → l.head?.map Prod.fst = some 0) := by
  obtain ⟨l, hgen, hlen, hmid, hlast⟩ :=
    generate_struct pts closed total rate h2 ht hr
  have hrq : (0 : ℚ) < (rate : ℚ) := by exact_mod_cast hr
  have htr : ratTrunc (total * (rate : ℚ) / 1000)
      = ⌊total * (rate : ℚ) / 1000⌋ := by
    rw [ratTrunc_eq,
      if_pos (div_nonneg (mul_nonneg ht.le hrq.le) (by norm_num))]
  have hd0 : (0 : ℚ) ≤ 1000 / (rate : ℚ) := by positivity
  have hterm : ∃ p : ℚ × ℚ,
      (if closed then pts.head? else pts.getLast?) = some p := by
    cases pts with
    | nil => simp at h2
    | cons a r =>
      cases closed with
      | true => exact ⟨a, rfl⟩
      | false =>
        cases hx : (a :: r).getLast? with
        | none => simp at hx
        | some p => exact ⟨p, by simp [hx]⟩
  obtain ⟨p, hp⟩ := hterm
  have hlastget : l.get? (l.length - 1) = some (total, p.1, p.2) := by
    rw [← List.getLast?_eq_get?, hlast, hp]
    rfl
  refine ⟨l, hgen, by rw [← htr]; exact hlen, ?_, ?_⟩
  · rw [List.chain'_iff_get]
    intro i hi
    have hi1 : i + 1 < l.length := by omega
    obtain ⟨xy, hxyi⟩ := hmid i hi1
    have e1 : l.get ⟨i, by omega⟩
        = (min ((i : ℚ) * (1000 / (rate : ℚ))) total, xy.1, xy.2) := by
      have hg := List.get?_eq_get (l := l) (n := i) (by omega)
      rw [hg] at hxyi
      exact Option.some.inj hxyi
    rcases Nat.lt_or_ge (i + 1 + 1) l.length with h3 | h3
    · obtain ⟨xy2, hxy2⟩ := hmid (i + 1) h3
      have e2 : l.get ⟨i + 1, by omega⟩
          = (min (((i + 1 : ℕ) : ℚ) * (1000 / (rate : ℚ))) total, xy2.1, xy2.2) := by
        have hg := List.get?_eq_get (l := l) (n := i + 1) (by omega)
        rw [hg] at hxy2
        exact Option.some.inj hxy2
      rw [e1, e2]
      refine min_le_min ?_ le_rfl
      refine mul_le_mul_of_nonneg_right ?_ hd0
      exact_mod_cast Nat.le_succ i
    · have hix : i + 1 = l.length - 1 := by omega
      have e2 : l.get ⟨i + 1, by omega⟩ = (total, p.1, p.2) := by
        have hg := List.get?_eq_get (l := l) (n := i + 1) (by omega)
        rw [← hix] at hlastget
        rw [hg] at hlastget
        exact Option.some.inj hlastget
      rw [e1, e2]
      exact min_le_right _ _
  · intro h2l
    obtain ⟨xy, hxy0⟩ := hmid 0 (by omega)
    rw [← List.get?_zero, hxy0]
    simp [min_eq_left ht.le]

/-- Claim C1 counterexample: with waypoints `[(0,0),(1,1)]`,
`total_time_ms = 1000`, `rate_hz = 1`, the sample count is 1 and the sole
sample is the corrected final one at `t_ms = 1000 ≠ 0`, so "the first
sample has t_ms = 0" fails. -/
theorem C1_cex : ¬ (∀ l,
    generateParametricPath [((0 : ℚ), (0 : ℚ)), (1, 1)] false 1000 1 = some l →
      l.length = (max 1 ⌊(1000 : ℚ) * ((1 : ℤ) : ℚ) / 1000⌋).toNat ∧
      List.Chain' (fun a b : ℚ × ℚ × ℚ => a.1 ≤ b.1) l ∧
      l.head?.map Prod.fst = some 0) := by
  intro hcl
  have hgen : generateParametricPath [((0 : ℚ), (0 : ℚ)), (1, 1)] false 1000 1
      = some [(1000, 1, 1)] := by
    norm_num [generateParametricPath, sampleAt, optMap, pyGet, ratTrunc_eq,
      List.range_succ]
  have h := (hcl _ hgen).2.2
  norm_num at h

/-- Witness for C1 at a concrete input. -/
theorem C1_wit : 2 ≤ ([((0 : ℚ), (0 : ℚ)), (1, 1)]).length ∧
    (0 : ℚ) < 4000 ∧ (0 : ℤ) < 100 ∧
    (∃ l, generateParametricPath [((0 : ℚ), (0 : ℚ)), (1, 1)] false 4000 100
        = some l ∧
      l.length = (max 1 ⌊(4000 : ℚ) * ((100 : ℤ) : ℚ) / 1000⌋).toNat ∧
      List.Chain' (fun a b : ℚ × ℚ × ℚ => a.1 ≤ b.1) l ∧
      (2 ≤ l.length → l.head?.map Prod.fst = some 0)) :=
  ⟨by decide, by decide, by decide,
    C1_thm [((0 : ℚ), (0 : ℚ)), (1, 1)] false 4000 100 (by decide) (by decide)
      (by decide)⟩

/-- In the per-sample loop, every appended `(target, sendTime)` entry has
its target computed from the fixed `t0` and the sample's `t_ms` only, so
the list of targets never depends on previous actual send times. -/
lemma streamAux_sched_targets (t0 : ℚ) (ackMode : Bool) (ackFuel : ℕ)
    (writeOk : ℕ → Bool) (postDur : ℕ → ℚ) (errText : String)
    (hwo : ∀ i, writeOk i = true) :
    ∀ (ss : List (ℚ × ℚ × ℚ)) (i : ℕ) (st : StreamSt),
      (streamAux t0 ackMode ackFuel writeOk postDur errText i ss st).sched.map
          Prod.fst
        = st.sched.map Prod.fst ++ ss.map (fun s => t0 + s.1 / 1000) := by
  intro ss
  induction ss with
  | nil => intro i st; simp [streamAux]
  | cons s rest ih =>
    intro i st
    simp only [streamAux, hwo i, if_true]
    cases ackMode with
    | false => rw [ih]; simp
    | true => rw [ih]; simp

/-- In the per-sample loop, every appended schedule entry satisfies
`target ≤ sendTime` (a sample is never sent before its target). -/
lemma streamAux_sched_le (t0 : ℚ) (ackMode : Bool) (ackFuel : ℕ)
    (writeOk : ℕ → Bool) (postDur : ℕ → ℚ) (errText : String) :
    ∀ (ss : List (ℚ × ℚ × ℚ)) (i : ℕ) (st : StreamSt),
      (∀ p ∈ st.sched, p.1 ≤ p.2) →
      ∀ p ∈ (streamAux t0 ackMode ackFuel writeOk postDur errText i ss st).sched,
        p.1 ≤ p.2 := by
  intro ss
  induction ss with
  | nil => intro i st h; simpa [streamAux] using h
  | cons s rest ih =>
    intro i st h
    simp only [streamAux]
    cases hw : writeOk i with
    | true =>
      simp only [if_true]
      cases ackMode with
      | false =>
        refine ih (i + 1) _ ?_
        intro p hp
        rcases List.mem_append.mp hp with hp | hp
        · exact h p hp
        · rw [List.mem_singleton.mp hp]; exact le_max_right _ _
      | true =>
        refine ih (i + 1) _ ?_
        intro p hp
        rcases List.mem_append.mp hp with hp | hp
        · exact h p hp
        · rw [List.mem_singleton.mp hp]; exact le_max_right _ _
    | false =>
      simp only [Bool.false_eq_true, if_false]
      intro p hp
      rcases List.mem_append.mp hp with hp | hp
      · exact h p hp
      · rw [List.mem_singleton.mp hp]; exact le_max_right _ _

/-- Claim C4: the dispatcher computes each sample's send target as
`session_start + t_ms/1000` from the single fixed session start
(`session_start = now + start_delay` at call entry); a sample is never sent
before its target, and the targets are identical no matter how long the
sends actually take (`postDur` vs `postDur'`), so timing drift never
accumulates across samples. -/
theorem C4_thm (samples : List (ℚ × ℚ × ℚ)) (ackMode : Bool)
    (startDelay now0 : ℚ) (ackFuel : ℕ) (writeOk : ℕ → Bool)
    (postDur postDur' : ℕ → ℚ) (errText : String) (respLines : List String)
    (hwo : ∀ i, writeOk i = true) :
    ((streamParametricPath samples ackMode startDelay now0 ackFuel writeOk
        postDur errText respLines).sched.map Prod.fst
      = samples.map (fun s => (now0 + startDelay) + s.1 / 1000)) ∧
    (∀ p ∈ (streamParametricPath samples ackMode startDelay now0 ackFuel
        writeOk postDur errText respLines).sched, p.1 ≤ p.2) ∧
    ((streamParametricPath samples ackMode startDelay now0 ackFuel writeOk
        postDur' errText respLines).sched.map Prod.fst
      = (streamParametricPath samples ackMode startDelay now0 ackFuel writeOk
        postDur errText respLines).sched.map Prod.fst) := by
  by_cases hs : samples.isEmpty
  · have h0 : samples = [] := List.isEmpty_iff.mp hs
    subst h0
    refine ⟨by simp [streamParametricPath], ?_, by simp [streamParametricPath]⟩
    intro p hp
    simp [streamParametricPath] at hp
  · have h1 := streamAux_sched_targets (now0 + startDelay) ackMode ackFuel
      writeOk postDur errText hwo samples 0
      { now := now0, written := [], log := [startMsg samples.length startDelay],
        sched := [], respBuf := respLines }
    have h1' := streamAux_sched_targets (now0 + startDelay) ackMode ackFuel
      writeOk postDur' errText hwo samples 0
      { now := now0, written := [], log := [startMsg samples.length startDelay],
        sched := [], respBuf := respLines }
    have h2 := streamAux_sched_le (now0 + startDelay) ackMode ackFuel
      writeOk postDur errText samples 0
      { now := now0, written := [], log := [startMsg samples.length startDelay],
        sched := [], respBuf := respLines }
      (by intro p hp; simp at hp)
    refine ⟨?_, ?_, ?_⟩
    · rw [streamParametricPath, if_neg (by simp [hs])]
      simpa using h1
    · rw [streamParametricPath, if_neg (by simp [hs])]
      exact h2
    · rw [streamParametricPath, if_neg (by simp [hs]),
        streamParametricPath, if_neg (by simp [hs])]
      rw [h1, h1']

/-- Witness for C4 at a concrete input (the spec's `t_ms = {0, 100, 200}`
scenario). -/
theorem C4_wit :
    (∀ i : ℕ, (fun _ : ℕ => true) i = true) ∧
    (((streamParametricPath [((0 : ℚ), 0, 0), (100, 1, 1), (200, 2, 2)] false
        0 0 40 (fun _ => true) (fun _ => 0) "" []).sched.map Prod.fst
      = ([((0 : ℚ), 0, 0), (100, 1, 1), (200, 2, 2)]).map
          (fun s => ((0 : ℚ) + 0) + s.1 / 1000)) ∧
    (∀ p ∈ (streamParametricPath [((0 : ℚ), 0, 0), (100, 1, 1), (200, 2, 2)]
        false 0 0 40 (fun _ => true) (fun _ => 0) "" []).sched, p.1 ≤ p.2) ∧
    ((streamParametricPath [((0 : ℚ), 0, 0), (100, 1, 1), (200, 2, 2)] false
        0 0 40 (fun _ => true) (fun _ => 1) "" []).sched.map Prod.fst
      = (streamParametricPath [((0 : ℚ), 0, 0), (100, 1, 1), (200, 2, 2)]
        false 0 0 40 (fun _ => true) (fun _ => 0) "" []).sched.map Prod.fst)) :=
  ⟨fun _ => rfl,
    C4_thm [((0 : ℚ), 0, 0), (100, 1, 1), (200, 2, 2)] false 0 0 40
      (fun _ => true) (fun _ => 0) (fun _ => 1) "" [] (fun _ => rfl)⟩

/-- Claim C10: streaming an empty trajectory is a no-op on the transport:
nothing is written, no sleep or acknowledgment wait occurs (the clock and
serial buffer are untouched), only the "No samples" message is printed and
the call returns normally. -/
theorem C10_thm (ackMode : Bool) (startDelay now0 : ℚ) (ackFuel : ℕ)
    (writeOk : ℕ → Bool) (postDur : ℕ → ℚ) (errText : String)
    (respLines : List String) :
    (streamParametricPath [] ackMode startDelay now0 ackFuel writeOk postDur
        errText respLines).written = [] ∧
    (streamParametricPath [] ackMode startDelay now0 ackFuel writeOk postDur
        errText respLines).now = now0 ∧
    (streamParametricPath [] ackMode startDelay now0 ackFuel writeOk postDur
        errText respLines).sched = [] ∧
    (streamParametricPath [] ackMode startDelay now0 ackFuel writeOk postDur
        errText respLines).respBuf = respLines ∧
    (streamParametricPath [] ackMode startDelay now0 ackFuel writeOk postDur
        errText respLines).log = [noSamplesMsg] :=
  ⟨rfl, rfl, rfl, rfl, rfl⟩

/-- A transmit failure at relative position `k` aborts the loop: exactly the
first `k` samples are written, and the error message is the last line
printed. -/
lemma streamAux_abort (t0 : ℚ) (ackMode : Bool) (ackFuel : ℕ)
    (writeOk : ℕ → Bool) (postDur : ℕ → ℚ) (errText : String) :
    ∀ (ss : List (ℚ × ℚ × ℚ)) (i k : ℕ) (st : StreamSt),
      k < ss.length → (∀ j, j < k → writeOk (i + j) = true) →
      writeOk (i + k) = false →
      (streamAux t0 ackMode ackFuel writeOk postDur errText i ss st).written
        = st.written ++ (ss.take k).map (fun s => (s.2.1, s.2.2)) ∧
      ∃ pre,
        (streamAux t0 ackMode ackFuel writeOk postDur errText i ss st).log
          = pre ++ [writeErrMsg errText] := by
  intro ss
  induction ss with
  | nil => intro i k st hk; simp at hk
  | cons s rest ih =>
    intro i k st hk hbefore hfail
    cases k with
    | zero =>
      have hw : writeOk i = false := by simpa using hfail
      simp only [streamAux, hw, Bool.false_eq_true, if_false]
      exact ⟨by simp, st.log, rfl⟩
    | succ k =>
      have hw : writeOk i = true := by simpa using hbefore 0 (by omega)
      simp only [streamAux, hw, if_true]
      cases ackMode with
      | false =>
        obtain ⟨h1, pre, h2⟩ := ih (i + 1) k _ (by simpa using hk)
          (fun j hj => by
            have h := hbefore (j + 1) (by omega)
            rw [show i + 1 + j = i + (j + 1) by omega]
            exact h)
          (by rw [show i + 1 + k = i + (k + 1) by omega]; exact hfail)
        refine ⟨by rw [h1]; simp, pre, h2⟩
      | true =>
        obtain ⟨h1, pre, h2⟩ := ih (i + 1) k _ (by simpa using hk)
          (fun j hj => by
            have h := hbefore (j + 1) (by omega)
            rw [show i + 1 + j = i + (j + 1) by omega]
            exact h)
          (by rw [show i + 1 + k = i + (k + 1) by omega]; exact hfail)
        refine ⟨by rw [h1]; simp, pre, h2⟩

/-- Claim C5 (amended): a transmit failure aborts the session immediately —
no retry, and none of the remaining samples are sent: the transport receives
exactly the samples before the first failing write, and the error message is
the last line printed.  (The function itself returns `None` either way and
never reports the number of samples dispatched — see the counterexample.) -/
theorem C5_thm (samples : List (ℚ × ℚ × ℚ)) (ackMode : Bool)
    (startDelay now0 : ℚ) (ackFuel : ℕ) (writeOk : ℕ → Bool)
    (postDur : ℕ → ℚ) (errText : String) (respLines : List String) (k : ℕ)
    (hk : k < samples.length) (hbefore : ∀ j, j < k → writeOk j = true)
    (hfail : writeOk k = false) :
    (streamParametricPath samples ackMode startDelay now0 ackFuel writeOk
        postDur errText respLines).written
      = (samples.take k).map (fun s => (s.2.1, s.2.2)) ∧
    ∃ pre,
      (streamParametricPath samples ackMode startDelay now0 ackFuel writeOk
          postDur errText respLines).log
        = pre ++ [writeErrMsg errText] := by
  have hne : ¬ samples.isEmpty = true := by
    intro h; rw [List.isEmpty_iff.mp h] at hk; simp at hk
  rw [streamParametricPath, if_neg hne]
  obtain ⟨h1, pre, h2⟩ := streamAux_abort (now0 + startDelay) ackMode ackFuel
    writeOk postDur errText samples 0 k
    { now := now0, written := [], log := [startMsg samples.length startDelay],
      sched := [], respBuf := respLines }
    hk (fun j hj => by simpa using hbefore j hj) (by simpa using hfail)
  exact ⟨by rw [h1]; simp, pre, h2⟩

/-- Claim C5 counterexample: two failing sessions over the same trajectory —
one failing at sample 0, one at sample 1 — print exactly the same lines (and
the Python function returns None in both cases), yet dispatched 0 resp. 1
samples: the operation does not report the failure, nor how many samples
were dispatched before it. -/
theorem C5_cex :
    ((streamParametricPath [((0 : ℚ), 0, 0), (100, 1, 1)] false 0 0 40
        (fun _ => false) (fun _ => 0) "boom" []).log
      = (streamParametricPath [((0 : ℚ), 0, 0), (100, 1, 1)] false 0 0 40
        (fun i => i == 0) (fun _ => 0) "boom" []).log) ∧
    (streamParametricPath [((0 : ℚ), 0, 0), (100, 1, 1)] false 0 0 40
        (fun _ => false) (fun _ => 0) "boom" []).written.length = 0 ∧
    (streamParametricPath [((0 : ℚ), 0, 0), (100, 1, 1)] false 0 0 40
        (fun i => i == 0) (fun _ => 0) "boom" []).written.length = 1 := by
  refine ⟨?_, ?_, ?_⟩ <;> simp [streamParametricPath, streamAux]

/-- Witness for C5 at a concrete input. -/
theorem C5_wit :
    0 < ([((0 : ℚ), 0, 0), (100, 1, 1)]).length ∧
    ((fun _ : ℕ => false) 0 = false) ∧
    ((streamParametricPath [((0 : ℚ), 0, 0), (100, 1, 1)] false 0 0 40
        (fun _ => false) (fun _ => 0) "boom" []).written
      = (([((0 : ℚ), 0, 0), (100, 1, 1)]).take 0).map
          (fun s => (s.2.1, s.2.2)) ∧
      ∃ pre,
        (streamParametricPath [((0 : ℚ), 0, 0), (100, 1, 1)] false 0 0 40
            (fun _ => false) (fun _ => 0) "boom" []).log
          = pre ++ [writeErrMsg "boom"]) :=
  ⟨by decide, rfl,
    C5_thm [((0 : ℚ), 0, 0), (100, 1, 1)] false 0 0 40 (fun _ => false)
      (fun _ => 0) "boom" [] 0 (by decide)
      (fun j hj => absurd hj (Nat.not_lt_zero j)) rfl⟩

/-- Characterization of `read_response`: it consumes a prefix of the
available lines, bounded by the poll budget; it echoes every consumed line;
it stops with success exactly at the first terminal line; if no terminal
line is found within the budget it stops at the budget (timeout) or when
the lines run out, all consumed lines being non-terminal. -/
lemma readResponse_spec : ∀ (fuel : ℕ) (lines : List String),
    ∃ k, k ≤ fuel ∧ k ≤ lines.length ∧
      (readResponse fuel lines).1 = (lines.take k).map arduinoEcho ∧
      (readResponse fuel lines).2.2 = lines.drop k ∧
      ((readResponse fuel lines).2.1 = true →
        ∃ pre last, lines.take k = pre ++ [last] ∧
          isTerminalResp last = true ∧
          ∀ r ∈ pre, isTerminalResp r = false) ∧
      ((readResponse fuel lines).2.1 = false →
        (k = fuel ∨ k = lines.length) ∧
        ∀ r ∈ lines.take k, isTerminalResp r = false) := by
  intro fuel
  induction fuel with
  | zero =>
    intro lines
    exact ⟨0, le_refl 0, Nat.zero_le _, by simp [readResponse],
      by simp [readResponse], by simp [readResponse],
      fun _ => ⟨Or.inl rfl, by simp⟩⟩
  | succ n ih =>
    intro lines
    cases lines with
    | nil =>
      refine ⟨0, by omega, by simp, by simp [readResponse],
        by simp [readResponse], by simp [readResponse], fun _ => ?_⟩
      exact ⟨Or.inr rfl, by simp⟩
    | cons r rest =>
      cases hterm : isTerminalResp r with
      | true =>
        refine ⟨1, by omega, by simp, ?_, ?_, ?_, ?_⟩
        · simp [readResponse, hterm]
        · simp [readResponse, hterm]
        · intro _
          exact ⟨[], r, by simp, hterm, by simp⟩
        · intro hf
          simp [readResponse, hterm] at hf
      | false =>
        obtain ⟨k, hk1, hk2, hcons, hrem, htrue, hfalse⟩ := ih rest
        refine ⟨k + 1, by omega, by simp; omega, ?_, ?_, ?_, ?_⟩
        · simp [readResponse, hterm, List.take_succ_cons, hcons]
        · simp [readResponse, hterm, hrem]
        · intro hfound
          have hf : (readResponse n rest).2.1 = true := by
            simpa [readResponse, hterm] using hfound
          obtain ⟨pre, last, he, hl, hpre⟩ := htrue hf
          refine ⟨r :: pre, last, by simp [List.take_succ_cons, he], hl, ?_⟩
          intro x hx
          rcases List.mem_cons.mp hx with h | h
          · rw [h]; exact hterm
          · exact hpre x h
        · intro hfound
          have hf : (readResponse n rest).2.1 = false := by
            simpa [readResponse, hterm] using hfound
          obtain ⟨hor, hall⟩ := hfalse hf
          constructor
          · rcases hor with h | h
            · exact Or.inl (by omega)
            · exact Or.inr (by simp; omega)
          · intro x hx
            rw [List.take_succ_cons] at hx
            rcases List.mem_cons.mp hx with h | h
            · rw [h]; exact hterm
            · exact hall x h

/-- With every write succeeding, the loop sends every sample, whatever the
acknowledgment traffic looks like — an ack timeout never aborts the
session. -/
lemma streamAux_written_length (t0 : ℚ) (ackMode : Bool) (ackFuel : ℕ)
    (writeOk : ℕ → Bool) (postDur : ℕ → ℚ) (errText : String)
    (hwo : ∀ i, writeOk i = true) :
    ∀ (ss : List (ℚ × ℚ × ℚ)) (i : ℕ) (st : StreamSt),
      (streamAux t0 ackMode ackFuel writeOk postDur errText i ss st).written.length
        = st.written.length + ss.length := by
  intro ss
  induction ss with
  | nil => intro i st; simp [streamAux]
  | cons s rest ih =>
    intro i st
    simp only [streamAux, hwo i, if_true]
    cases ackMode with
    | false => rw [ih]; simp; omega
    | true => rw [ih]; simp; omega

/-- Claim C7: in ack mode, after each send the dispatcher blocks for a
recognized terminal response — a line containing "Position reached!" or
"ERROR" terminates the wait for that sample, any other line is echoed and
waiting continues — up to the bounded poll budget; and an ack timeout never
aborts: with every write succeeding, every sample is still sent regardless
of the response traffic. -/
theorem C7_thm (fuel : ℕ) (lines : List String)
    (samples : List (ℚ × ℚ × ℚ)) (startDelay now0 : ℚ) (ackFuel : ℕ)
    (writeOk : ℕ → Bool) (postDur : ℕ → ℚ) (errText : String)
    (respLines : List String) (hwo : ∀ i, writeOk i = true) :
    (∃ k, k ≤ fuel ∧ k ≤ lines.length ∧
      (readResponse fuel lines).1 = (lines.take k).map arduinoEcho ∧
      (readResponse fuel lines).2.2 = lines.drop k ∧
      ((readResponse fuel lines).2.1 = true →
        ∃ pre last, lines.take k = pre ++ [last] ∧
          isTerminalResp last = true ∧
          ∀ r ∈ pre, isTerminalResp r = false) ∧
      ((readResponse fuel lines).2.1 = false →
        (k = fuel ∨ k = lines.length) ∧
        ∀ r ∈ lines.take k, isTerminalResp r = false)) ∧
    (streamParametricPath samples true startDelay now0 ackFuel writeOk
        postDur errText respLines).written.length = samples.length := by
  constructor
  · exact readResponse_spec fuel lines
  · by_cases hs : samples.isEmpty
    · rw [streamParametricPath, if_pos hs]
      simp [List.isEmpty_iff.mp hs]
    · rw [streamParametricPath, if_neg hs]
      rw [streamAux_written_length _ _ _ _ _ _ hwo]
      simp

/-- Witness for C7 at a concrete input. -/
theorem C7_wit :
    (∀ i : ℕ, (fun _ : ℕ => true) i = true) ∧
    ((∃ k, k ≤ 40 ∧ k ≤ (["init", "Position reached!"]).length ∧
      (readResponse 40 ["init", "Position reached!"]).1
        = ((["init", "Position reached!"]).take k).map arduinoEcho ∧
      (readResponse 40 ["init", "Position reached!"]).2.2
        = (["init", "Position reached!"]).drop k ∧
      ((readResponse 40 ["init", "Position reached!"]).2.1 = true →
        ∃ pre last, (["init", "Position reached!"]).take k = pre ++ [last] ∧
          isTerminalResp last = true ∧
          ∀ r ∈ pre, isTerminalResp r = false) ∧
      ((readResponse 40 ["init", "Position reached!"]).2.1 = false →
        (k = 40 ∨ k = (["init", "Position reached!"]).length) ∧
        ∀ r ∈ (["init", "Position reached!"]).take k,
          isTerminalResp r = false)) ∧
    (streamParametricPath [((0 : ℚ), 0, 0)] true 0 0 40 (fun _ => true)
        (fun _ => 0) "" ["ok"]).written.length
      = ([((0 : ℚ), 0, 0)]).length) :=
  ⟨fun _ => rfl,
    C7_thm 40 ["init", "Position reached!"] [((0 : ℚ), 0, 0)] 0 0 40
      (fun _ => true) (fun _ => 0) "" ["ok"] (fun _ => rfl)⟩

/-- The source's clamp `t = total if t > total else t` is `min t total`. -/
lemma ite_gt_min (x total : ℚ) :
    (if x > total then total else x) = min x total := by
  rcases le_or_lt x total with h | h
  · rw [if_neg (not_lt.mpr h), min_eq_left h]
  · rw [if_pos h, min_eq_right h.le]

/-- Claim C8: for positive duration and rate, `circle_path` uses the same
sample-count rule `max 1 ⌊total·rate/1000⌋`; every sample except the forced
final one has position `center + radius·(cos angle, sin angle)` with
`angle = start_angle + min 1 (t/total) · 2π`, hence (by the Pythagorean
identity) lies exactly at squared distance `radius²` from the center; and
the final sample is force-corrected to exactly
`(total, center + radius·(cos start_angle, sin start_angle))`. -/
theorem C8_thm (cosF sinF : ℚ → ℚ) (piQ cx cy radius total : ℚ) (rate : ℤ)
    (startAngle : ℚ) (ht : 0 < total) (hr : 0 < rate)
    (hpyth : ∀ a, cosF a ^ 2 + sinF a ^ 2 = 1) :
    ∃ l, circlePath cosF sinF piQ cx cy radius total rate startAngle
        = some l ∧
      l.length = (max 1 ⌊total * (rate : ℚ) / 1000⌋).toNat ∧
      (∀ i, i + 1 < l.length →
        l.get? i = some (min ((i : ℚ) * (1000 / (rate : ℚ))) total,
          cx + radius * cosF (startAngle
            + min 1 (min ((i : ℚ) * (1000 / (rate : ℚ))) total / total)
              * (2 * piQ)),
          cy + radius * sinF (startAngle
            + min 1 (min ((i : ℚ) * (1000 / (rate : ℚ))) total / total)
              * (2 * piQ)))) ∧
      (∀ i xy, i + 1 < l.length → l.get? i = some xy →
        (xy.2.1 - cx) ^ 2 + (xy.2.2 - cy) ^ 2 = radius ^ 2) ∧
      l.getLast? = some (total, cx + radius * cosF startAngle,
        cy + radius * sinF startAngle) := by
  have hrne : rate ≠ 0 := by omega
  have hrq : (0 : ℚ) < (rate : ℚ) := by exact_mod_cast hr
  have htr : ratTrunc (total * (rate : ℚ) / 1000)
      = ⌊total * (rate : ℚ) / 1000⌋ := by
    rw [ratTrunc_eq,
      if_pos (div_nonneg (mul_nonneg ht.le hrq.le) (by norm_num))]
  have hts1 : 1 ≤ (max 1 (ratTrunc (total * (rate : ℚ) / 1000))).toNat := by
    have := le_max_left 1 (ratTrunc (total * (rate : ℚ) / 1000))
    omega
  have hne : ¬ ((List.range
      ((max 1 (ratTrunc (total * (rate : ℚ) / 1000))).toNat)).map
      (fun s : ℕ =>
        ((if (s : ℚ) * (1000 / (rate : ℚ)) > total then total
            else (s : ℚ) * (1000 / (rate : ℚ))),
          cx + radius * cosF (startAngle
            + (if 0 < total then min 1 ((if (s : ℚ) * (1000 / (rate : ℚ)) > total
                then total else (s : ℚ) * (1000 / (rate : ℚ))) / total) else 1)
              * (2 * piQ)),
          cy + radius * sinF (startAngle
            + (if 0 < total then min 1 ((if (s : ℚ) * (1000 / (rate : ℚ)) > total
                then total else (s : ℚ) * (1000 / (rate : ℚ))) / total) else 1)
              * (2 * piQ))))).isEmpty = true := by
    rw [List.isEmpty_iff, List.map_eq_nil, List.range_eq_nil]
    omega
  have hgen : circlePath cosF sinF piQ cx cy radius total rate startAngle
      = some ((((List.range
          ((max 1 (ratTrunc (total * (rate : ℚ) / 1000))).toNat)).map
          (fun s : ℕ =>
            ((if (s : ℚ) * (1000 / (rate : ℚ)) > total then total
                else (s : ℚ) * (1000 / (rate : ℚ))),
              cx + radius * cosF (startAngle
                + (if 0 < total then min 1 ((if (s : ℚ) * (1000 / (rate : ℚ)) > total
                    then total else (s : ℚ) * (1000 / (rate : ℚ))) / total) else 1)
                  * (2 * piQ)),
              cy + radius * sinF (startAngle
                + (if 0 < total then min 1 ((if (s : ℚ) * (1000 / (rate : ℚ)) > total
                    then total else (s : ℚ) * (1000 / (rate : ℚ))) / total) else 1)
                  * (2 * piQ))))).dropLast)
        ++ [(total, cx + radius * cosF startAngle,
              cy + radius * sinF startAngle)]) := by
    simp only [circlePath, if_neg hrne]
    rw [if_neg hne]
  refine ⟨_, hgen, ?_, ?_, ?_, ?_⟩
  · simp only [List.length_append, List.length_dropLast, List.length_map,
      List.length_range, List.length_singleton, htr]
    omega
  · intro i hi
    simp only [List.length_append, List.length_dropLast, List.length_map,
      List.length_range, List.length_singleton] at hi
    have hi' : i < (max 1 (ratTrunc (total * (rate : ℚ) / 1000))).toNat - 1 := by
      omega
    rw [List.get?_append (by
      simp only [List.length_dropLast, List.length_map, List.length_range]
      omega)]
    rw [List.dropLast_eq_take, List.get?_take (by
      simp only [List.length_map, List.length_range]
      omega)]
    rw [List.get?_map, List.get?_range (by omega)]
    simp only [Option.map_some']
    rw [ite_gt_min, if_pos ht]
  · intro i xy hi hxy
    simp only [List.length_append, List.length_dropLast, List.length_map,
      List.length_range, List.length_singleton] at hi
    rw [List.get?_append (by
      simp only [List.length_dropLast, List.length_map, List.length_range]
      omega)] at hxy
    rw [List.dropLast_eq_take, List.get?_take (by
      simp only [List.length_map, List.length_range]
      omega)] at hxy
    rw [List.get?_map, List.get?_range (by omega)] at hxy
    simp only [Option.map_some', Option.some.injEq] at hxy
    rw [← hxy]
    simp only [add_sub_cancel_left]
    rw [mul_pow, mul_pow, ← mul_add, hpyth, mul_one]
  · rw [List.getLast?_concat]

/-- Witness for C8 at a concrete input (constant trig functions satisfying
the Pythagorean identity). -/
theorem C8_wit :
    (0 : ℚ) < 1000 ∧ (0 : ℤ) < 10 ∧
    (∀ a : ℚ, (fun _ : ℚ => (1 : ℚ)) a ^ 2 + (fun _ : ℚ => (0 : ℚ)) a ^ 2
      = 1) ∧
    (∃ l, circlePath (fun _ : ℚ => (1 : ℚ)) (fun _ : ℚ => (0 : ℚ)) 3 5 7 2
        1000 10 0 = some l ∧
      l.length = (max 1 ⌊(1000 : ℚ) * ((10 : ℤ) : ℚ) / 1000⌋).toNat ∧
      (∀ i, i + 1 < l.length →
        l.get? i = some (min ((i : ℚ) * (1000 / ((10 : ℤ) : ℚ))) 1000,
          5 + 2 * 1, 7 + 2 * 0)) ∧
      (∀ i xy, i + 1 < l.length → l.get? i = some xy →
        (xy.2.1 - 5) ^ 2 + (xy.2.2 - 7) ^ 2 = 2 ^ 2) ∧
      l.getLast? = some (1000, 5 + 2 * 1, 7 + 2 * 0)) :=
  ⟨by decide, by decide, fun a => by norm_num,
    C8_thm (fun _ : ℚ => (1 : ℚ)) (fun _ : ℚ => (0 : ℚ)) 3 5 7 2 1000 10 0
      (by decide) (by decide) (fun a => by norm_num)⟩

lemma digit_toNat (k : ℕ) (h : k < 10) : (Char.ofNat (48 + k)).toNat = 48 + k := by
  interval_cases k <;> decide

lemma digit_isDigit (k : ℕ) (h : k < 10) :
    isDigitCh (Char.ofNat (48 + k)) = true := by
  interval_cases k <;> decide

lemma natDigits_ne_nil (n : ℕ) : natDigits n ≠ [] := by
  rw [natDigits]
  split <;> simp

lemma natDigits_all (n : ℕ) : ∀ c ∈ natDigits n, isDigitCh c = true := by
  induction n using Nat.strong_induction_on with
  | _ n ih =>
    rw [natDigits]
    split
    · rename_i h
      intro c hc
      simp only [List.mem_singleton] at hc
      subst hc
      exact digit_isDigit n h
    · rename_i h
      intro c hc
      rcases List.mem_append.mp hc with h1 | h1
      · exact ih (n / 10) (Nat.div_lt_self (by omega) (by omega)) c h1
      · simp only [List.mem_singleton] at h1
        subst h1
        exact digit_isDigit (n % 10) (Nat.mod_lt _ (by omega))

lemma natVal_append (ds : List Char) (c : Char) :
    natVal (ds ++ [c]) = natVal ds * 10 + digitVal c := by
  unfold natVal
  rw [List.foldl_append]
  rfl

lemma natVal_natDigits (n : ℕ) : natVal (natDigits n) = n := by
  induction n using Nat.strong_induction_on with
  | _ n ih =>
    rw [natDigits]
    split
    · rename_i h
      show natVal [Char.ofNat (48 + n)] = n
      unfold natVal digitVal
      simp [digit_toNat n h]
    · rename_i h
      rw [natVal_append, ih (n / 10) (Nat.div_lt_self (by omega) (by omega))]
      unfold digitVal
      rw [digit_toNat (n % 10) (Nat.mod_lt _ (by omega))]
      omega

lemma natDigits_len_le : ∀ (n p : ℕ), 1 ≤ p → n < 10 ^ p →
    (natDigits n).length ≤ p := by
  intro n
  induction n using Nat.strong_induction_on with
  | _ n ih =>
    intro p hp hn
    rw [natDigits]
    split
    · rename_i h
      simpa using hp
    · rename_i h
      have hp2 : 2 ≤ p := by
        rcases p with _ | _ | p'
        · omega
        · simp at hn; omega
        · omega
      have hdivlt : n / 10 < 10 ^ (p - 1) := by
        rw [Nat.div_lt_iff_lt_mul (by omega)]
        have hpow : 10 ^ (p - 1) * 10 = 10 ^ p := by
          rw [← pow_succ]
          congr 1
          omega
        omega
      have := ih (n / 10) (Nat.div_lt_self (by omega) (by omega)) (p - 1)
        (by omega) hdivlt
      simp only [List.length_append, List.length_singleton]
      omega

lemma natVal_rep_zero_append (k : ℕ) (ds : List Char) :
    natVal (List.replicate k '0' ++ ds) = natVal ds := by
  have h0 : (List.replicate k '0').foldl (fun a c => a * 10 + digitVal c) 0
      = 0 := by
    induction k with
    | zero => rfl
    | succ k ih =>
      rw [List.replicate_succ, List.foldl_cons]
      have hz : (0 : ℕ) * 10 + digitVal '0' = 0 := by decide
      rw [hz]
      exact ih
  unfold natVal
  rw [List.foldl_append, h0]

lemma takeWhile_append_drop {P : Char → Bool} :
    ∀ (l₁ : List Char) (x : Char) (l₂ : List Char),
      (∀ c ∈ l₁, P c = true) → P x = false →
      (l₁ ++ x :: l₂).takeWhile P = l₁ ∧
      (l₁ ++ x :: l₂).dropWhile P = x :: l₂ := by
  intro l₁
  induction l₁ with
  | nil =>
    intro x l₂ _ hx
    constructor
    · simp [List.takeWhile_cons, hx]
    · simp [List.dropWhile_cons, hx]
  | cons c cs ih =>
    intro x l₂ hall hx
    have hc : P c = true := hall c (by simp)
    obtain ⟨h1, h2⟩ := ih x l₂ (fun d hd => hall d (by simp [hd])) hx
    constructor
    · simp [List.takeWhile_cons, hc, h1]
    · simp [List.dropWhile_cons, hc, h2]

lemma rndHalfEven_intCast (m : ℤ) : rndHalfEven (m : ℚ) = m := by
  simp only [rndHalfEven, ratFloor_eq, Int.floor_intCast, sub_self]
  norm_num

/-- Splitting and evaluating the digits of a rendered fixed-precision
numeral `ip ++ '.' :: fp`. -/
lemma parseDec_core (p a : ℕ) (hp : 1 ≤ p) :
    ((natDigits (a / 10 ^ p)
      ++ '.' :: (List.replicate (p - (natDigits (a % 10 ^ p)).length) '0'
        ++ natDigits (a % 10 ^ p))).takeWhile isDigitCh
      = natDigits (a / 10 ^ p)) ∧
    ((natDigits (a / 10 ^ p)
      ++ '.' :: (List.replicate (p - (natDigits (a % 10 ^ p)).length) '0'
        ++ natDigits (a % 10 ^ p))).dropWhile isDigitCh
      = '.' :: (List.replicate (p - (natDigits (a % 10 ^ p)).length) '0'
        ++ natDigits (a % 10 ^ p))) ∧
    ((List.replicate (p - (natDigits (a % 10 ^ p)).length) '0'
      ++ natDigits (a % 10 ^ p)).all isDigitCh = true) ∧
    ((natDigits (a / 10 ^ p)).isEmpty = false) ∧
    ((natVal (natDigits (a / 10 ^ p)) : ℚ)
      + (natVal (List.replicate (p - (natDigits (a % 10 ^ p)).length) '0'
          ++ natDigits (a % 10 ^ p)) : ℚ)
        / 10 ^ (List.replicate (p - (natDigits (a % 10 ^ p)).length) '0'
          ++ natDigits (a % 10 ^ p)).length
      = (a : ℚ) / 10 ^ p) := by
  have h10 : ((10 : ℚ)) ^ p ≠ 0 := by positivity
  have hmodlt : a % 10 ^ p < 10 ^ p := Nat.mod_lt _ (by positivity)
  have hlen : (List.replicate (p - (natDigits (a % 10 ^ p)).length) '0'
      ++ natDigits (a % 10 ^ p)).length = p := by
    have h1 := natDigits_len_le (a % 10 ^ p) p hp hmodlt
    simp only [List.length_append, List.length_replicate]
    omega
  obtain ⟨htw, hdw⟩ := takeWhile_append_drop (P := isDigitCh)
    (natDigits (a / 10 ^ p)) '.'
    (List.replicate (p - (natDigits (a % 10 ^ p)).length) '0'
      ++ natDigits (a % 10 ^ p))
    (natDigits_all _) (by decide)
  refine ⟨htw, hdw, ?_, ?_, ?_⟩
  · rw [List.all_eq_true]
    intro c hc
    rcases List.mem_append.mp hc with h1 | h1
    · rw [List.eq_of_mem_replicate h1]; decide
    · exact natDigits_all _ c h1
  · rw [List.isEmpty_eq_false_iff_exists_mem]
    obtain ⟨c, cs', hcs⟩ := List.exists_cons_of_ne_nil (natDigits_ne_nil (a / 10 ^ p))
    exact ⟨c, by rw [hcs]; simp⟩
  · rw [hlen, natVal_rep_zero_append, natVal_natDigits, natVal_natDigits]
    rw [eq_div_iff h10, add_mul, div_mul_cancel₀ _ h10]
    exact_mod_cast Nat.div_add_mod' a (10 ^ p)

/-- Formatting a rational that is exactly representable at `p` decimal
places and parsing it back is the identity. -/
lemma parse_fmtFixed (p : ℕ) (q : ℚ) (hp : 1 ≤ p)
    (hden : (q * 10 ^ p).den = 1) :
    parseDec (fmtFixed p q).data = some q := by
  have h10 : ((10 : ℚ)) ^ p ≠ 0 := by positivity
  set m : ℤ := (q * 10 ^ p).num with hm
  have hqm : q * 10 ^ p = (m : ℚ) := by
    conv_lhs => rw [← Rat.num_div_den (q * 10 ^ p)]
    rw [hden]
    simp
  have hq : q = (m : ℚ) / 10 ^ p := by
    rw [eq_div_iff h10]; exact hqm
  have hrnd : rndHalfEven (q * 10 ^ p) = m := by
    rw [hqm]; exact rndHalfEven_intCast m
  obtain ⟨htw, hdw, hall, hipne, hval⟩ := parseDec_core p m.natAbs hp
  have hdata : (fmtFixed p q).data
      = (if q < 0 then ['-'] else [])
        ++ natDigits (m.natAbs / 10 ^ p)
        ++ '.' :: (List.replicate
            (p - (natDigits (m.natAbs % 10 ^ p)).length) '0'
          ++ natDigits (m.natAbs % 10 ^ p)) := by
    simp only [fmtFixed, hrnd]
  rcases lt_or_le q 0 with hneg | hpos
  · have hmQ : (m : ℚ) < 0 := by
      rw [← hqm]; exact mul_neg_of_neg_of_pos hneg (by positivity)
    have hmneg : m < 0 := by exact_mod_cast hmQ
    have haq : ((m.natAbs : ℕ) : ℚ) = -(m : ℚ) := by
      have h1 : (m.natAbs : ℤ) = -m := by omega
      have h2 := congrArg (fun z : ℤ => (z : ℚ)) h1
      simp only [Int.cast_natCast, Int.cast_neg] at h2
      exact h2
    rw [hdata, if_pos hneg]
    show parseDec ('-' :: (natDigits (m.natAbs / 10 ^ p)
      ++ '.' :: (List.replicate (p - (natDigits (m.natAbs % 10 ^ p)).length) '0'
        ++ natDigits (m.natAbs % 10 ^ p)))) = some q
    simp only [parseDec, htw, hdw, hall, hipne, beq_self_eq_true, Bool.true_or,
      if_true, Bool.true_and, Bool.and_false, Bool.false_and, Bool.not_false,
      Option.map_some']
    rw [hval, haq, hq]
    rw [neg_div, neg_neg]
  · have hmQ : (0 : ℚ) ≤ (m : ℚ) := by
      rw [← hqm]; exact mul_nonneg hpos (by positivity)
    have hmnn : 0 ≤ m := by exact_mod_cast hmQ
    have haq : ((m.natAbs : ℕ) : ℚ) = (m : ℚ) := by
      have h1 : (m.natAbs : ℤ) = m := by omega
      have h2 := congrArg (fun z : ℤ => (z : ℚ)) h1
      simp only [Int.cast_natCast] at h2
      exact h2
    rw [hdata, if_neg (not_lt.mpr hpos)]
    obtain ⟨c, cs', hcs⟩ :=
      List.exists_cons_of_ne_nil (natDigits_ne_nil (m.natAbs / 10 ^ p))
    have hcdig : isDigitCh c = true := natDigits_all _ c (by rw [hcs]; simp)
    have hcm : (c == '-') = false := by
      cases hbe : c == '-' with
      | false => rfl
      | true =>
        have hce : c = '-' := eq_of_beq hbe
        rw [hce] at hcdig
        exact absurd hcdig (by decide)
    have hcp : (c == '+') = false := by
      cases hbe : c == '+' with
      | false => rfl
      | true =>
        have hce : c = '+' := eq_of_beq hbe
        rw [hce] at hcdig
        exact absurd hcdig (by decide)
    rw [hcs] at htw hdw hipne hval ⊢
    simp only [List.cons_append] at htw hdw ⊢
    simp only [List.nil_append, List.cons_append]
    simp only [parseDec, hcm, hcp, htw, hdw, hall, hipne, Bool.or_self,
      Bool.false_or, Bool.false_eq_true, if_false, Bool.true_and,
      Bool.and_false, Bool.false_and, Bool.not_false, Option.map_some']
    rw [hval, haq, hq]
    norm_num

/-- Loading a saved row recovers the sample exactly when its values are
representable at the stated precision. -/
lemma loadRow_saveRow (acc : List (ℚ × ℚ × ℚ)) (s : ℚ × ℚ × ℚ)
    (h3 : (s.1 * 10 ^ 3).den = 1) (h6x : (s.2.1 * 10 ^ 6).den = 1)
    (h6y : (s.2.2 * 10 ^ 6).den = 1) :
    loadRow acc [fmtFixed 3 s.1, fmtFixed 6 s.2.1, fmtFixed 6 s.2.2]
      = acc ++ [s] := by
  simp only [loadRow]
  rw [parse_fmtFixed 3 s.1 (by norm_num) h3,
    parse_fmtFixed 6 s.2.1 (by norm_num) h6x,
    parse_fmtFixed 6 s.2.2 (by norm_num) h6y]

/-- Folding the loader over the saved body rebuilds the sample list. -/
lemma foldl_loadRow : ∀ (l : List (ℚ × ℚ × ℚ)) (acc : List (ℚ × ℚ × ℚ)),
    (∀ s ∈ l, (s.1 * 10 ^ 3).den = 1 ∧ (s.2.1 * 10 ^ 6).den = 1 ∧
      (s.2.2 * 10 ^ 6).den = 1) →
    ((l.map fun s => [fmtFixed 3 s.1, fmtFixed 6 s.2.1, fmtFixed 6 s.2.2]).foldl
      loadRow acc) = acc ++ l := by
  intro l
  induction l with
  | nil => intro acc _; simp
  | cons s rest ih =>
    intro acc h
    obtain ⟨h3, h6x, h6y⟩ := h s (by simp)
    simp only [List.map_cons, List.foldl_cons]
    rw [loadRow_saveRow acc s h3 h6x h6y,
      ih (acc ++ [s]) (fun x hx => h x (by simp [hx]))]
    simp

/-- Claim C9: round trip through persistence — for every non-empty
trajectory whose values are representable at the stated precision (3
decimals for `t_ms`, 6 for `x`/`y`), loading its canonical fixed-precision
file (header `t_ms,x,y` plus one data row per sample) recovers the
trajectory exactly, so saving the loaded result reproduces the file:
`save(load f) = f`. -/
theorem C9_thm (samples : List (ℚ × ℚ × ℚ)) (hne : samples ≠ [])
    (hrep : ∀ s ∈ samples, (s.1 * 10 ^ 3).den = 1 ∧
      (s.2.1 * 10 ^ 6).den = 1 ∧ (s.2.2 * 10 ^ 6).den = 1) :
    loadCsvPath (saveToCsv samples) = some samples ∧
    (loadCsvPath (saveToCsv samples)).map saveToCsv
      = some (saveToCsv samples) := by
  have hload : loadCsvPath (saveToCsv samples) = some samples := by
    simp only [saveToCsv, loadCsvPath]
    rw [foldl_loadRow samples [] hrep, List.nil_append]
    rw [if_neg (by simpa [List.isEmpty_iff] using hne)]
  exact ⟨hload, by rw [hload]; rfl⟩

/-- Witness for C9 at a concrete input. -/
theorem C9_wit :
    ([((2 : ℚ), 3, 4)] : List (ℚ × ℚ × ℚ)) ≠ [] ∧
    (∀ s ∈ ([((2 : ℚ), 3, 4)] : List (ℚ × ℚ × ℚ)),
      (s.1 * 10 ^ 3).den = 1 ∧ (s.2.1 * 10 ^ 6).den = 1 ∧
      (s.2.2 * 10 ^ 6).den = 1) ∧
    (loadCsvPath (saveToCsv [((2 : ℚ), 3, 4)]) = some [((2 : ℚ), 3, 4)] ∧
      (loadCsvPath (saveToCsv [((2 : ℚ), 3, 4)])).map saveToCsv
        = some (saveToCsv [((2 : ℚ), 3, 4)])) := by
  have hrep : ∀ s ∈ ([((2 : ℚ), 3, 4)] : List (ℚ × ℚ × ℚ)),
      (s.1 * 10 ^ 3).den = 1 ∧ (s.2.1 * 10 ^ 6).den = 1 ∧
      (s.2.2 * 10 ^ 6).den = 1 := by
    intro s hs
    simp only [List.mem_singleton] at hs
    subst hs
    refine ⟨?_, ?_, ?_⟩ <;> norm_num
  exact ⟨by simp, hrep, C9_thm [((2 : ℚ), 3, 4)] (by simp) hrep⟩
